import Mathlib

/-!
Verification of the EMIT L2A reflectance exploration notebook
(`01_Exploring_EMIT_L2A_Reflectance.ipynb`).

Shallow embedding conventions:
* A floating-point cell that may be NaN is modelled as `Option ℚ` (for the
  exact masking/counting operations) or `Option ℝ` (for the gamma scaling):
  `none` stands for NaN / missing, `some v` for a finite value.
* numpy arrays become Lean lists (1D) or lists of lists (2D); `np.stack`
  becomes a three-element list of grids.
* Intermediate numpy values that can be NaN or +inf (the output of
  `np.power` before `clip`/`nan_to_num`) are modelled by the type `NpVal`.
* Python exceptions (`math.log` domain errors, division by zero) become
  `Except String`.
-/

/-- The sentinel reflectance value `-0.01` that marks water-absorption bands
in the EMIT L2A product (`ds['reflectance'].where(ds['reflectance']!=-0.01)`). -/
def sentinel : ℚ := -1/100

/-- Elementwise condition `x != -0.01` as numpy evaluates it: NaN compared
with `!=` yields `True` (NaN is unordered, so `NaN == -0.01` is `False`),
hence a missing cell satisfies the condition and is kept. -/
def neqSentinel (c : Option ℚ) : Bool :=
  match c with
  | none => true
  | some v => decide (v ≠ sentinel)

/-- One cell of `arr.where(arr != -0.01)`: keep the cell where the condition
holds, replace it by NaN (`none`) where it fails. -/
def whereCell (c : Option ℚ) : Option ℚ :=
  if neqSentinel c then c else none

/-- The masking operation `arr.where(arr != -0.01)` applied to a whole
reflectance array (flattened to one list of cells). -/
def whereMask (xs : List (Option ℚ)) : List (Option ℚ) :=
  xs.map whereCell

/-- Number of missing (NaN) cells of an array. -/
def countMissing (xs : List (Option ℚ)) : ℕ :=
  xs.countP (fun c => c.isNone)

/-- Number of cells exactly equal to the sentinel `-0.01`. -/
def countSentinel (xs : List (Option ℚ)) : ℕ :=
  xs.countP (fun c => decide (c = some sentinel))

/-- A merged EMIT dataset as the notebook builds it in `xr.merge([refl,wvl])`:
the reflectance cells (flattened), the band-parameter variables `wavelengths`
and `fwhm`, and the integer band coordinate. -/
structure EmitDataset where
  reflectance : List (Option ℚ)
  wavelengths : List ℚ
  fwhm : List ℚ
  bandsCoord : List ℕ

/-- The cell `ds['reflectance'] = ds['reflectance'].where(ds['reflectance']!=-0.01)`:
only the `reflectance` variable is recomputed; every other variable of the
dataset is carried over unchanged. -/
def maskSentinel (ds : EmitDataset) : EmitDataset :=
  { ds with reflectance := whereMask ds.reflectance }

theorem whereCell_idem (c : Option ℚ) : whereCell (whereCell c) = whereCell c := by
  cases c with
  | none => rfl
  | some v =>
    by_cases h : v = sentinel
    · simp [whereCell, neqSentinel, h]
    · simp [whereCell, neqSentinel, h]

theorem whereCell_eq_self_of_ne (c : Option ℚ) (h : c ≠ some sentinel) :
    whereCell c = c := by
  cases c with
  | none => rfl
  | some v =>
    have hv : v ≠ sentinel := by
      intro hv; exact h (by simp [hv])
    simp [whereCell, neqSentinel, hv]

theorem whereCell_sentinel : whereCell (some sentinel) = none := by
  simp [whereCell, neqSentinel]

/-- C8: the sentinel masking operation is idempotent: for every reflectance
array, applying `where(x != -0.01)` twice gives the same result as applying it
once, because masked cells become missing and a missing cell is never equal
to `-0.01` (NaN `!=` anything is `True`, so it is kept as-is). -/
theorem whereMask_idem (xs : List (Option ℚ)) :
    whereMask (whereMask xs) = whereMask xs := by
  induction xs with
  | nil => rfl
  | cons c xs ih =>
    simp only [whereMask, List.map_cons] at ih ⊢
    rw [whereCell_idem]
    exact congrArg _ (by simpa [whereMask] using ih)

/-- C3 counterexample: on an array whose single cell is already missing (NaN),
the masked result has one missing cell but the array contains no sentinel
cells, so the two counts differ. -/
theorem whereMask_count_cex :
    countMissing (whereMask [(none : Option ℚ)]) ≠
      countSentinel [(none : Option ℚ)] := by
  decide

/-- C3 (amended): the count of missing cells after `where(x != -0.01)` equals
the count of sentinel cells plus the count of cells that were already missing
in the original array (NaN `!=` -0.01 is `True`, so pre-existing NaN cells are
kept as NaN and also count as missing). -/
theorem whereMask_missing_count (xs : List (Option ℚ)) :
    countMissing (whereMask xs) = countSentinel xs + countMissing xs := by
  induction xs with
  | nil => rfl
  | cons c xs ih =>
    cases c with
    | none =>
      simp [whereMask, countMissing, countSentinel, List.countP_cons,
        whereCell, neqSentinel] at ih ⊢
      omega
    | some v =>
      by_cases hv : v = sentinel
      · simp [whereMask, countMissing, countSentinel, List.countP_cons,
          whereCell, neqSentinel, hv] at ih ⊢
        omega
      · simp [whereMask, countMissing, countSentinel, List.countP_cons,
          whereCell, neqSentinel, hv] at ih ⊢
        omega

/-- C5: the masking step changes only the cells whose reflectance equals
exactly `-0.01` (setting them to missing); every reflectance cell with any
other value, and every other variable of the dataset (`wavelengths`, `fwhm`,
the band coordinate), is left unchanged. -/
theorem maskSentinel_frame (ds : EmitDataset) :
    (maskSentinel ds).wavelengths = ds.wavelengths ∧
    (maskSentinel ds).fwhm = ds.fwhm ∧
    (maskSentinel ds).bandsCoord = ds.bandsCoord ∧
    ∀ i : ℕ, ∀ c : Option ℚ, ds.reflectance[i]? = some c →
      (c ≠ some sentinel → (maskSentinel ds).reflectance[i]? = some c) ∧
      (c = some sentinel → (maskSentinel ds).reflectance[i]? = some none) := by
  refine ⟨rfl, rfl, rfl, ?_⟩
  intro i c hc
  have hmap : (maskSentinel ds).reflectance[i]? = some (whereCell c) := by
    simp [maskSentinel, whereMask, List.getElem?_map, hc]
  constructor
  · intro hne
    rw [hmap, whereCell_eq_self_of_ne c hne]
  · intro hse
    rw [hmap, hse, whereCell_sentinel]

/-- Concrete dataset used to instantiate frame theorems. -/
def exDs : EmitDataset :=
  { reflectance := [some 1, some sentinel, none]
    wavelengths := [650]
    fwhm := [10]
    bandsCoord := [0] }

theorem maskSentinel_frame_wit :
    (maskSentinel exDs).wavelengths = exDs.wavelengths ∧
    (maskSentinel exDs).reflectance[0]? = some (some 1) ∧
    (maskSentinel exDs).reflectance[1]? = some none := by
  refine ⟨(maskSentinel_frame exDs).1, ?_, ?_⟩
  · exact ((maskSentinel_frame exDs).2.2.2 0 (some 1) rfl).1
      (by simp [sentinel]; norm_num)
  · exact ((maskSentinel_frame exDs).2.2.2 1 (some sentinel) rfl).2 rfl

/-- One combining step of `np.nanargmin` scanning an array from the left:
a NaN cell is skipped (indices of the tail shift by one), a finite cell
replaces the best-so-far of the tail exactly when it is `≤` it, so the first
index of the minimum wins ties, as `np.nanargmin`/`np.argmin` do. -/
def minCell (c : Option ℚ) (r : Option (ℕ × ℚ)) : Option (ℕ × ℚ) :=
  match c, r with
  | none, none => none
  | none, some p => some (p.1 + 1, p.2)
  | some v, none => some (0, v)
  | some v, some p => if v ≤ p.2 then some (0, v) else some (p.1 + 1, p.2)

/-- Index and value of the minimum of the non-NaN cells, or `none` when every
cell is NaN (the case where `np.nanargmin` raises). -/
def nanargminAux : List (Option ℚ) → Option (ℕ × ℚ)
  | [] => none
  | c :: xs => minCell c (nanargminAux xs)

/-- Model of `np.nanargmin`: index of the smallest non-NaN cell, first index
winning ties; `none` models the all-NaN error case. -/
def nanargmin (xs : List (Option ℚ)) : Option ℕ :=
  (nanargminAux xs).map Prod.fst

/-- The nearest-band lookup `np.nanargmin(abs(ds['wavelengths'].values - t))`
used for `b650`, `b560` and `b470` (the absolute difference of a NaN
wavelength is NaN and is skipped). -/
def bNearest (wvls : List (Option ℚ)) (t : ℚ) : Option ℕ :=
  nanargmin (wvls.map (Option.map (fun w => |w - t|)))

theorem nanargminAux_eq_none (xs : List (Option ℚ)) (h : nanargminAux xs = none) :
    ∀ k : ℕ, ∀ v : ℚ, xs[k]? ≠ some (some v) := by
  induction xs with
  | nil => intro k v; simp
  | cons c xs ih =>
    rw [nanargminAux] at h
    cases c with
    | none =>
      cases hx : nanargminAux xs with
      | none =>
        intro k v
        cases k with
        | zero => simp
        | succ k => simpa using ih hx k v
      | some p => rw [hx] at h; simp [minCell] at h
    | some v0 =>
      exfalso
      cases hx : nanargminAux xs with
      | none => rw [hx] at h; simp [minCell] at h
      | some p =>
        rw [hx] at h
        by_cases hle : v0 ≤ p.2 <;> simp [minCell, hle] at h

theorem nanargminAux_spec (xs : List (Option ℚ)) (j : ℕ) (w : ℚ)
    (h : nanargminAux xs = some (j, w)) :
    xs[j]? = some (some w) ∧ ∀ (k : ℕ) (v : ℚ), xs[k]? = some (some v) → w ≤ v := by
  induction xs generalizing j w with
  | nil => simp [nanargminAux] at h
  | cons c xs ih =>
    rw [nanargminAux] at h
    cases c with
    | none =>
      cases hx : nanargminAux xs with
      | none => rw [hx] at h; simp [minCell] at h
      | some p =>
        rw [hx] at h
        simp only [minCell, Option.some.injEq, Prod.mk.injEq] at h
        obtain ⟨hj, hw⟩ := h
        obtain ⟨hpos, hmin⟩ := ih p.1 p.2 (by rw [hx])
        subst hj; subst hw
        refine ⟨by simpa using hpos, ?_⟩
        intro k v hk
        cases k with
        | zero => simp at hk
        | succ k => exact hmin k v (by simpa using hk)
    | some v0 =>
      cases hx : nanargminAux xs with
      | none =>
        rw [hx] at h
        simp only [minCell, Option.some.injEq, Prod.mk.injEq] at h
        obtain ⟨hj, hw⟩ := h
        subst hj; subst hw
        refine ⟨by simp, ?_⟩
        intro k v hk
        cases k with
        | zero =>
          simp only [List.getElem?_cons_zero, Option.some.injEq] at hk
          obtain rfl : v0 = v := hk
          exact le_refl _
        | succ k =>
          exact absurd (by simpa using hk) (nanargminAux_eq_none xs hx k v)
      | some p =>
        rw [hx] at h
        obtain ⟨hpos, hmin⟩ := ih p.1 p.2 (by rw [hx])
        by_cases hle : v0 ≤ p.2
        · simp only [minCell, hle, if_true, Option.some.injEq, Prod.mk.injEq] at h
          obtain ⟨hj, hw⟩ := h
          subst hj; subst hw
          refine ⟨by simp, ?_⟩
          intro k v hk
          cases k with
          | zero =>
            simp only [List.getElem?_cons_zero, Option.some.injEq] at hk
            obtain rfl : v0 = v := hk
            exact le_refl _
          | succ k => exact le_trans hle (hmin k v (by simpa using hk))
        · simp only [minCell, hle, if_false, Option.some.injEq, Prod.mk.injEq] at h
          obtain ⟨hj, hw⟩ := h
          subst hj; subst hw
          refine ⟨by simpa using hpos, ?_⟩
          intro k v hk
          cases k with
          | zero =>
            simp only [List.getElem?_cons_zero, Option.some.injEq] at hk
            obtain rfl : v0 = v := hk
            exact le_of_lt (lt_of_not_le hle)
          | succ k => exact hmin k v (by simpa using hk)

theorem nanargminAux_isSome (xs : List (Option ℚ)) (h : ∃ c ∈ xs, c.isSome) :
    ∃ p, nanargminAux xs = some p := by
  obtain ⟨c, hc, hs⟩ := h
  obtain ⟨v, rfl⟩ := Option.isSome_iff_exists.mp hs
  cases hx : nanargminAux xs with
  | some p => exact ⟨p, rfl⟩
  | none =>
    obtain ⟨k, hk⟩ := List.mem_iff_getElem?.mp hc
    exact absurd hk (nanargminAux_eq_none xs hx k v)

/-- C1: the nearest-band lookup `np.nanargmin(abs(wavelengths - target))`
returns a band index minimizing the absolute difference between that band's
center wavelength and the target, over all bands with a non-NaN wavelength
(linear-scan equivalence), provided at least one wavelength is non-NaN. -/
theorem bNearest_minimizes (wvls : List (Option ℚ)) (t : ℚ)
    (h : ∃ c ∈ wvls, c.isSome) :
    ∃ (i : ℕ) (w : ℚ), bNearest wvls t = some i ∧ wvls[i]? = some (some w) ∧
      ∀ (j : ℕ) (v : ℚ), wvls[j]? = some (some v) → |w - t| ≤ |v - t| := by
  obtain ⟨p, hp⟩ := nanargminAux_isSome (wvls.map (Option.map (fun w => |w - t|)))
    (by
      obtain ⟨c, hc, hs⟩ := h
      obtain ⟨v, rfl⟩ := Option.isSome_iff_exists.mp hs
      exact ⟨some |v - t|, List.mem_map.mpr ⟨some v, hc, rfl⟩, rfl⟩)
  obtain ⟨hpos, hmin⟩ := nanargminAux_spec _ p.1 p.2 (by rw [hp])
  rw [List.getElem?_map] at hpos
  obtain ⟨c, hc, hfc⟩ := Option.map_eq_some'.mp hpos
  obtain ⟨w, rfl, hfw⟩ := Option.map_eq_some'.mp hfc
  refine ⟨p.1, w, ?_, hc, ?_⟩
  · rw [bNearest, nanargmin, hp]; rfl
  · intro j v hj
    have hjm : (wvls.map (Option.map (fun w => |w - t|)))[j]? =
        some (some |v - t|) := by
      rw [List.getElem?_map, hj]; rfl
    rw [hfw]
    exact hmin j |v - t| hjm

theorem bNearest_minimizes_wit :
    ∃ (i : ℕ) (w : ℚ),
      bNearest [some 600, none, some 660] 650 = some i ∧
      ([some 600, none, some 660] : List (Option ℚ))[i]? = some (some w) ∧
      ∀ (j : ℕ) (v : ℚ),
        ([some 600, none, some 660] : List (Option ℚ))[j]? = some (some v) →
          |w - 650| ≤ |v - 650| :=
  bNearest_minimizes [some 600, none, some 660] 650 ⟨some 600, by simp, rfl⟩

/-- Intermediate numpy float value in the gamma-scaling pipeline: a NaN, a
positive infinity, or a finite real. -/
inductive NpVal where
  | nan : NpVal
  | pinf : NpVal
  | fin (x : ℝ) : NpVal

/-- Model of `np.power(array, gamma)` on one cell, for a non-integer exponent
`g` (which `gamma = log(0.2)/log(mean)` is outside degenerate means): a NaN
input gives NaN, a negative base gives NaN, a zero base with negative exponent
gives `+inf`, and a positive base (or zero base with `g ≥ 0`) gives the real
power `x ^ g`. -/
noncomputable def powNI (g : ℝ) (c : Option ℝ) : NpVal :=
  match c with
  | none => NpVal.nan
  | some x =>
    if x < 0 then NpVal.nan
    else if x = 0 ∧ g < 0 then NpVal.pinf
    else NpVal.fin (x ^ g)

/-- Model of `.clip(lo, hi)` on one cell: NaN passes through, `+inf` clips to
the upper bound, and a finite value is clamped to `[lo, hi]`. -/
noncomputable def clipNp (lo hi : ℝ) : NpVal → NpVal
  | NpVal.nan => NpVal.nan
  | NpVal.pinf => NpVal.fin hi
  | NpVal.fin x => NpVal.fin (max lo (min hi x))

/-- Model of `np.nan_to_num(scaled, nan = repl)` on one cell: NaN becomes
`repl`, `+inf` becomes the largest finite float, a finite value is kept. -/
noncomputable def nanToNum (repl : ℝ) : NpVal → ℝ
  | NpVal.nan => repl
  | NpVal.pinf => 1.7976931348623157e308
  | NpVal.fin x => x

/-- One cell of the body of `gamma_adjust`:
`np.nan_to_num(np.power(array, gamma).clip(0, 1), nan = 1)`. -/
noncomputable def scaledCell (g : ℝ) (c : Option ℝ) : ℝ :=
  nanToNum 1 (clipNp 0 1 (powNI g c))

/-- The exponent `gamma = math.log(0.2)/math.log(m)` of `gamma_adjust`,
evaluated for a mean `m` where `math.log` does not raise. -/
noncomputable def gammaExp (m : ℝ) : ℝ :=
  Real.log 0.2 / Real.log m

/-- Model of `np.nanmean(array)`: the mean of the non-NaN cells. -/
noncomputable def nanmean (xs : List (Option ℝ)) : ℝ :=
  xs.reduceOption.sum / xs.reduceOption.length

/-- The elementwise part of `gamma_adjust` applied to a whole 2D band with a
given exponent `g`. -/
noncomputable def gammaAdjustGrid (g : ℝ) (grid : List (List (Option ℝ))) :
    List (List ℝ) :=
  grid.map (fun row => row.map (scaledCell g))

/-- The function `gamma_adjust` of the notebook on an extracted 2D band:
computes `gamma` from the `np.nanmean` of the band and rescales every cell. -/
noncomputable def gamma_adjust (grid : List (List (Option ℝ))) : List (List ℝ) :=
  gammaAdjustGrid (gammaExp (nanmean grid.flatten)) grid

/-- Model of `np.stack([r, g, b])`: a new leading axis of length 3. -/
def stack3 (r g b : List (List ℝ)) : List (List (List ℝ)) :=
  [r, g, b]

/-- Model of Python `math.log`: raises `ValueError: math domain error` on a
non-positive argument, returns the real logarithm otherwise. -/
noncomputable def mathLogE (x : ℝ) : Except String ℝ :=
  if x ≤ 0 then Except.error "math domain error" else Except.ok (Real.log x)

/-- Model of Python float division: raises `ZeroDivisionError` on a zero
denominator. -/
noncomputable def divE (a b : ℝ) : Except String ℝ :=
  if b = 0 then Except.error "float division by zero" else Except.ok (a / b)

/-- The exception behaviour of `gamma = math.log(0.2)/math.log(m)` in
`gamma_adjust` (Python evaluates `math.log(0.2)` first, then `math.log(m)`,
then divides). -/
noncomputable def gammaExpE (m : ℝ) : Except String ℝ :=
  match mathLogE 0.2 with
  | Except.error e => Except.error e
  | Except.ok ln =>
    match mathLogE m with
    | Except.error e => Except.error e
    | Except.ok lm => divE ln lm

/-- C2: for a band whose mean of valid values is `m` with `0 < m` and
`m ≠ 1` (the domain where `gamma = log(0.2)/log(m)` is defined, see the
safety theorem), the gamma scaling maps the value `m` itself to exactly
`0.2`; the clip to `[0, 1]` does not alter it since `0.2` lies inside that
range. -/
theorem gamma_maps_mean (A : List (Option ℝ))
    (h1 : 0 < nanmean A) (h2 : nanmean A ≠ 1) :
    scaledCell (gammaExp (nanmean A)) (some (nanmean A)) = 0.2 := by
  have hm0 : ¬ (nanmean A < 0) := not_lt.mpr (le_of_lt h1)
  have hmz : ¬ (nanmean A = 0 ∧ gammaExp (nanmean A) < 0) := by
    rintro ⟨hz, _⟩
    exact absurd hz (ne_of_gt h1)
  rw [scaledCell, powNI]
  rw [if_neg hm0, if_neg hmz]
  have hpow : nanmean A ^ gammaExp (nanmean A) = 0.2 := by
    have hlb : gammaExp (nanmean A) = Real.logb (nanmean A) 0.2 := by
      rw [gammaExp, Real.logb]
    rw [hlb]
    exact Real.rpow_logb h1 h2 (by norm_num)
  rw [hpow]
  simp [clipNp, nanToNum]
  norm_num

theorem gamma_maps_mean_wit :
    0 < nanmean [some (2:ℝ)] ∧ nanmean [some (2:ℝ)] ≠ 1 ∧
      scaledCell (gammaExp (nanmean [some (2:ℝ)])) (some (nanmean [some (2:ℝ)]))
        = 0.2 := by
  have hm : nanmean [some (2:ℝ)] = 2 := by
    simp [nanmean, List.reduceOption]
  refine ⟨by rw [hm]; norm_num, by rw [hm]; norm_num, ?_⟩
  exact gamma_maps_mean [some (2:ℝ)] (by rw [hm]; norm_num) (by rw [hm]; norm_num)

/-- C9: the exponent computation of `gamma_adjust` succeeds exactly when the
mean `m` of the band's valid values satisfies `0 < m` and `m ≠ 1`:
`math.log` raises a domain error when `m ≤ 0`, and the division raises a
zero-division error when `m = 1` (since `log 1 = 0`); under the precondition
`0 < m < 1` or `m > 1` every error branch is unreachable. -/
theorem gammaExpE_ok_iff (m : ℝ) :
    (∃ g : ℝ, gammaExpE m = Except.ok g) ↔ (0 < m ∧ m ≠ 1) := by
  have h02 : mathLogE (0.2 : ℝ) = Except.ok (Real.log 0.2) := by
    rw [mathLogE, if_neg]; norm_num
  rw [gammaExpE, h02]
  by_cases hm : m ≤ 0
  · rw [mathLogE, if_pos hm]
    refine iff_of_false ?_ ?_
    · rintro ⟨g, hg⟩; exact Except.noConfusion hg
    · rintro ⟨h1, _⟩; exact absurd h1 (not_lt.mpr hm)
  · push_neg at hm
    rw [mathLogE, if_neg (not_le.mpr hm)]
    by_cases h1 : m = 1
    · subst h1
      simp only [divE]
      rw [if_pos (by simp [Real.log_one] : Real.log (1:ℝ) = 0)]
      refine iff_of_false ?_ ?_
      · rintro ⟨g, hg⟩; exact Except.noConfusion hg
      · rintro ⟨_, hne⟩; exact hne rfl
    · have hlog : Real.log m ≠ 0 := by
        intro h0
        rcases Real.log_eq_zero.mp h0 with h | h | h
        · exact absurd h (ne_of_gt hm)
        · exact h1 h
        · rw [h] at hm; norm_num at hm
      simp only [divE]
      rw [if_neg hlog]
      exact iff_of_true ⟨_, rfl⟩ ⟨hm, h1⟩

/-- C10: a cell with a strictly negative valid reflectance is mapped by the
gamma scaling to exactly `1`, the same output as a missing (NaN) cell:
the negative base raised to the non-integer exponent gives NaN, which
`np.nan_to_num(..., nan = 1)` replaces by `1`, so negative-reflectance pixels
are indistinguishable from masked pixels in the output. -/
theorem gamma_negative_eq_missing (g x : ℝ) (hx : x < 0) :
    scaledCell g (some x) = 1 ∧ scaledCell g none = 1 := by
  constructor
  · rw [scaledCell, powNI, if_pos hx]
    simp [clipNp, nanToNum]
  · rw [scaledCell, powNI]
    simp [clipNp, nanToNum]

theorem gamma_negative_eq_missing_wit :
    ((-1 : ℝ) < 0) ∧
      (scaledCell 1 (some (-1 : ℝ)) = 1 ∧ scaledCell 1 none = 1) :=
  ⟨by norm_num, gamma_negative_eq_missing 1 (-1) (by norm_num)⟩

theorem scaledCell_mem_unit (g : ℝ) (c : Option ℝ) :
    0 ≤ scaledCell g c ∧ scaledCell g c ≤ 1 := by
  rw [scaledCell]
  cases hpw : powNI g c with
  | nan => simp [clipNp, nanToNum]
  | pinf => simp [clipNp, nanToNum]
  | fin x =>
    simp only [clipNp, nanToNum]
    exact ⟨le_max_left 0 _, max_le (by norm_num) (min_le_left 1 x)⟩

theorem gammaAdjustGrid_shape (g : ℝ) (X : List (List (Option ℝ)))
    (rows cols : ℕ) (hl : X.length = rows)
    (hc : ∀ row ∈ X, row.length = cols) :
    (gammaAdjustGrid g X).length = rows ∧
      ∀ row ∈ gammaAdjustGrid g X, row.length = cols := by
  constructor
  · simpa [gammaAdjustGrid] using hl
  · intro row hrow
    obtain ⟨r0, hr0, rfl⟩ := List.mem_map.mp (by simpa [gammaAdjustGrid] using hrow)
    simpa using hc r0 hr0

theorem gammaAdjustGrid_mem_unit (g : ℝ) (X : List (List (Option ℝ))) :
    ∀ row ∈ gammaAdjustGrid g X, ∀ v ∈ row, 0 ≤ v ∧ v ≤ 1 := by
  intro row hrow v hv
  obtain ⟨r0, hr0, rfl⟩ := List.mem_map.mp (by simpa [gammaAdjustGrid] using hrow)
  obtain ⟨c, hc, rfl⟩ := List.mem_map.mp hv
  exact scaledCell_mem_unit g c

/-- C4: stacking three equally-shaped gamma-scaled bands with `np.stack`
gives an array of shape `(3, rows, cols)` — the spatial shape of the inputs
is preserved under a new leading axis of length 3 — and every value of the
stack lies in the closed interval `[0, 1]`. -/
theorem stack_rgb_shape_range (g1 g2 g3 : ℝ)
    (R G B : List (List (Option ℝ))) (rows cols : ℕ)
    (hR : R.length = rows) (hG : G.length = rows) (hB : B.length = rows)
    (hRc : ∀ row ∈ R, row.length = cols)
    (hGc : ∀ row ∈ G, row.length = cols)
    (hBc : ∀ row ∈ B, row.length = cols) :
    (stack3 (gammaAdjustGrid g1 R) (gammaAdjustGrid g2 G)
        (gammaAdjustGrid g3 B)).length = 3 ∧
    (∀ m ∈ stack3 (gammaAdjustGrid g1 R) (gammaAdjustGrid g2 G)
        (gammaAdjustGrid g3 B),
      m.length = rows ∧ ∀ row ∈ m, row.length = cols) ∧
    (∀ m ∈ stack3 (gammaAdjustGrid g1 R) (gammaAdjustGrid g2 G)
        (gammaAdjustGrid g3 B),
      ∀ row ∈ m, ∀ v ∈ row, 0 ≤ v ∧ v ≤ 1) := by
  refine ⟨rfl, ?_, ?_⟩
  · intro m hm
    simp only [stack3, List.mem_cons, List.not_mem_nil, or_false] at hm
    rcases hm with rfl | rfl | rfl
    · exact gammaAdjustGrid_shape g1 R rows cols hR hRc
    · exact gammaAdjustGrid_shape g2 G rows cols hG hGc
    · exact gammaAdjustGrid_shape g3 B rows cols hB hBc
  · intro m hm
    simp only [stack3, List.mem_cons, List.not_mem_nil, or_false] at hm
    rcases hm with rfl | rfl | rfl
    · exact gammaAdjustGrid_mem_unit g1 R
    · exact gammaAdjustGrid_mem_unit g2 G
    · exact gammaAdjustGrid_mem_unit g3 B

theorem stack_rgb_shape_range_wit :
    (stack3 (gammaAdjustGrid 1 [[some (1/2 : ℝ)]])
        (gammaAdjustGrid 1 [[some (1/2 : ℝ)]])
        (gammaAdjustGrid 1 [[some (1/2 : ℝ)]])).length = 3 ∧
    (∀ m ∈ stack3 (gammaAdjustGrid 1 [[some (1/2 : ℝ)]])
        (gammaAdjustGrid 1 [[some (1/2 : ℝ)]])
        (gammaAdjustGrid 1 [[some (1/2 : ℝ)]]),
      m.length = 1 ∧ ∀ row ∈ m, row.length = 1) ∧
    (∀ m ∈ stack3 (gammaAdjustGrid 1 [[some (1/2 : ℝ)]])
        (gammaAdjustGrid 1 [[some (1/2 : ℝ)]])
        (gammaAdjustGrid 1 [[some (1/2 : ℝ)]]),
      ∀ row ∈ m, ∀ v ∈ row, 0 ≤ v ∧ v ≤ 1) :=
  stack_rgb_shape_range 1 1 1 [[some (1/2 : ℝ)]] [[some (1/2 : ℝ)]]
    [[some (1/2 : ℝ)]] 1 1 rfl rfl rfl (by simp) (by simp) (by simp)

/-- Sequential composition of the notebook's fallible library steps, in cell
order: `nc.Dataset`/`xr.open_dataset` on the root group, the
`sensor_band_parameters` group, the `location` group, and
`apply_gltx(fp)`; the continuation `k` is the remaining pure processing
(merging, masking, band lookup, gamma scaling, plotting). The notebook
contains no `try`/`except`, so each step is run directly and its failure
ends the run. -/
def runNotebook {E A B C D Out : Type} (root : Except E A) (bands : Except E B)
    (loc : Except E C) (geo : Except E D) (k : A → B → C → D → Out) :
    Except E Out :=
  match root with
  | Except.error e => Except.error e
  | Except.ok a =>
    match bands with
    | Except.error e => Except.error e
    | Except.ok b =>
      match loc with
      | Except.error e => Except.error e
      | Except.ok c =>
        match geo with
        | Except.error e => Except.error e
        | Except.ok d => Except.ok (k a b c d)

/-- C6: the notebook performs no exception handling, validation or recovery:
when any underlying library step fails (all earlier steps having succeeded),
the library's error value propagates unchanged to the caller; no step of the
notebook catches or transforms it. -/
theorem runNotebook_propagates {E A B C D Out : Type} (root : Except E A)
    (bands : Except E B) (loc : Except E C) (geo : Except E D)
    (k : A → B → C → D → Out) (e : E) :
    (root = Except.error e →
      runNotebook root bands loc geo k = Except.error e) ∧
    (∀ a : A, root = Except.ok a → bands = Except.error e →
      runNotebook root bands loc geo k = Except.error e) ∧
    (∀ (a : A) (b : B), root = Except.ok a → bands = Except.ok b →
      loc = Except.error e →
      runNotebook root bands loc geo k = Except.error e) ∧
    (∀ (a : A) (b : B) (c : C), root = Except.ok a → bands = Except.ok b →
      loc = Except.ok c → geo = Except.error e →
      runNotebook root bands loc geo k = Except.error e) := by
  refine ⟨?_, ?_, ?_, ?_⟩
  · intro h; subst h; rfl
  · intro a h1 h2; subst h1; subst h2; rfl
  · intro a b h1 h2 h3; subst h1; subst h2; subst h3; rfl
  · intro a b c h1 h2 h3 h4; subst h1; subst h2; subst h3; subst h4; rfl

theorem runNotebook_propagates_wit :
    runNotebook (Except.error 7) (Except.ok 0) (Except.ok 0) (Except.ok 0)
        (fun a b c d : ℕ => a + b + c + d) = Except.error 7 ∧
    runNotebook (Except.ok 1) (Except.error 7) (Except.ok 0) (Except.ok 0)
        (fun a b c d : ℕ => a + b + c + d) = Except.error 7 :=
  ⟨(runNotebook_propagates (Except.error 7) (Except.ok 0) (Except.ok 0)
      (Except.ok 0) (fun a b c d : ℕ => a + b + c + d) 7).1 rfl,
   (runNotebook_propagates (Except.ok 1) (Except.error 7) (Except.ok 0)
      (Except.ok 0) (fun a b c d : ℕ => a + b + c + d) 7).2.1 1 rfl rfl⟩

/-- A file-system interaction of the notebook: reading or writing a file at
a path. -/
inductive FsEvent where
  | read (path : String) : FsEvent
  | write (path : String) : FsEvent
deriving DecidableEq

/-- File-system events of a notebook run, in cell order: `nc.Dataset(fp)`,
`xr.open_dataset(fp)`, `xr.open_dataset(fp, group='sensor_band_parameters')`,
`xr.open_dataset(fp, group='location')`, and `apply_gltx(fp)`.
Modelled from the spec: `apply_glt_xarray.apply_gltx(filepath)` is consumed
as an opaque function that reads the input file and returns a gridded
dataset in memory; its source is not part of this repository's visible
source. Every other cell builds in-memory arrays, datasets or interactive
plot objects and touches no file. -/
def notebookFsTrace (fp : String) : List FsEvent :=
  [FsEvent.read fp, FsEvent.read fp, FsEvent.read fp, FsEvent.read fp,
   FsEvent.read fp]

/-- C7: no derived file is persisted by a run of the notebook: every
file-system event of the run is a read, and it reads only the input NetCDF
file `fp`. -/
theorem notebookFsTrace_only_reads (fp : String) :
    ∀ e ∈ notebookFsTrace fp, e = FsEvent.read fp := by
  intro e he
  simp only [notebookFsTrace, List.mem_cons, List.not_mem_nil, or_false] at he
  rcases he with rfl | rfl | rfl | rfl | rfl <;> rfl

theorem notebookFsTrace_only_reads_wit :
    FsEvent.read "EMIT_L2A_RFL.nc" ∈ notebookFsTrace "EMIT_L2A_RFL.nc" ∧
      FsEvent.read "EMIT_L2A_RFL.nc" = FsEvent.read "EMIT_L2A_RFL.nc" :=
  ⟨by simp [notebookFsTrace],
   notebookFsTrace_only_reads "EMIT_L2A_RFL.nc" (FsEvent.read "EMIT_L2A_RFL.nc")
     (by simp [notebookFsTrace])⟩
